import Mathlib

/-!
# stdawn/network: the HTTP request helper of `request.go`

A shallow embedding of `request.go` and the properties of its three layers:
the retry wrapper (`retryRequest`), the single attempt (`SynRequest`) and the
header applier (`addRequestHeader`).

Conventions of the embedding.

* Go strings are Lean `String`s (valid UTF-8 text); `len(s) < 1` is
  `s.length < 1`, which holds for the same strings.
* A Go result `(string, []*http.Cookie, error)` is a `Result`; a nil slice and
  a nil error are `none`.
* The header argument of dynamic type `interface{}` is a `HeaderSpec`.
* What lies outside the repository (URL validation in `http.NewRequest`,
  `json.Unmarshal`, the order in which `range` visits a map, the rendering of a
  cookie, the network) is a `World`; its state `σ` is threaded through the
  calls that reach it.
* `*http.Request` is mutated in place by the source; here every step returns
  the updated `Request`.
-/

namespace Network

/-! ## Data model -/

/-- The type `RequestMethod` of the source is a defined string type. -/
abbrev RequestMethod := String

def RequestMethodGet : RequestMethod := "GET"
def RequestMethodPost : RequestMethod := "POST"
def RequestMethodPut : RequestMethod := "PUT"
def RequestMethodDelete : RequestMethod := "DELETE"
def RequestMethodHead : RequestMethod := "HEAD"
def RequestMethodOptions : RequestMethod := "OPTIONS"
def RequestMethodTrace : RequestMethod := "TRACE"
def RequestMethodConnect : RequestMethod := "CONNECT"

namespace http

/-- An `http.Cookie`, passed through by the helper. -/
structure Cookie where
  Name : String
  Value : String
deriving DecidableEq, Repr

/-- The `http.Header` map: a name is absent (`none`) or bound to its values. -/
abbrev Header := String → Option (List String)

/-- The header map `make(Header)` of a fresh request. -/
def emptyHeader : Header := fun _ => none

/-- The fields of `http.Request` the helper reads or writes. `URL` keeps the
text handed to `http.NewRequest`; `Body` is `none` for a nil reader. -/
structure Request where
  Method : String
  URL : String
  Body : Option String
  Header : Header
  Close : Bool

/-- What `client.Do` hands back: `Body` is the outcome of `ioutil.ReadAll` on
the response body, `Cookies` the value of `resp.Cookies()`. -/
structure Response where
  Body : Except String String
  Cookies : List Cookie

end http

/-- The triple `(string, []*http.Cookie, error)` returned by the entry points;
`err` holds the error message. -/
structure Result where
  body : String
  cookies : Option (List http.Cookie)
  err : Option String
deriving DecidableEq, Repr

/-- The dynamic value passed as `header interface{}`: a `string`, a
`map[string]string` (its pairs; a nil map has none), or a value of any other
dynamic type (the nil interface included). -/
inductive HeaderSpec where
  | str (headerStr : String)
  | map (mapResult : List (String × String))
  | other
deriving DecidableEq, Repr

/-- The environment of the helper, over a state `σ` that only the network call
changes.

* `newRequestErr method url` is the error of `http.NewRequest`, if any (it
  validates the method token and parses the URL);
* `Unmarshal` is `json.Unmarshal` into a `map[string]string`: the decoder's
  message, or the pairs of the decoded map;
* `rangeOrder s m` is the order in which a `range` loop started in state `s`
  visits the pairs of the map `m`, a rearrangement of them;
* `cookieString c` is the text `name=value` that `Request.AddCookie` renders
  after sanitising the cookie;
* `Do` is `http.Client.Do` with the one-minute timeout. -/
structure World (σ : Type) where
  newRequestErr : String → String → Option String
  Unmarshal : String → Except String (List (String × String))
  rangeOrder : σ → List (String × String) → List (String × String)
  rangeOrder_perm : ∀ s m, (rangeOrder s m).Perm m
  cookieString : http.Cookie → String
  Do : http.Request → σ → Except String http.Response × σ

/-! ## Standard-library functions the helper calls -/

/-- Go's `unicode.IsSpace`. -/
def isSpace (c : Char) : Bool :=
  let n := c.toNat
  (9 ≤ n && n ≤ 13) || n == 32 || n == 0x85 || n == 0xA0 || n == 0x1680 ||
  (0x2000 ≤ n && n ≤ 0x200A) || n == 0x2028 || n == 0x2029 || n == 0x202F ||
  n == 0x205F || n == 0x3000

/-- Go's `strings.TrimSpace`: leading and trailing white space removed. -/
def TrimSpace (s : String) : String :=
  ⟨((s.data.dropWhile isSpace).reverse.dropWhile isSpace).reverse⟩

/-- Go's `strings.Contains`. -/
def Contains (s substr : String) : Bool :=
  s.data.tails.any (fun t => substr.data.isPrefixOf t)

/-- The token bytes of `net/textproto` (`validHeaderFieldByte`): letters,
digits and the fifteen marks of RFC 7230. -/
def validHeaderFieldByte (c : Char) : Bool :=
  let n := c.toNat
  (48 ≤ n && n ≤ 57) || (97 ≤ n && n ≤ 122) || (65 ≤ n && n ≤ 90) ||
  n ∈ [33, 35, 36, 37, 38, 39, 42, 43, 45, 46, 94, 95, 96, 124, 126]

/-- The rewriting loop of `canonicalMIMEHeaderKey`: upper case at the start
and after each dash, lower case elsewhere. -/
def canonicalLoop : Bool → List Char → List Char
  | _, [] => []
  | upper, c :: rest =>
    let c :=
      if upper && 97 ≤ c.toNat && c.toNat ≤ 122 then Char.ofNat (c.toNat - 32)
      else if !upper && 65 ≤ c.toNat && c.toNat ≤ 90 then Char.ofNat (c.toNat + 32)
      else c
    c :: canonicalLoop (c == '-') rest

/-- The function `textproto.CanonicalMIMEHeaderKey`: a key with a byte that is
no token byte is returned unchanged, any other key in canonical form. -/
def CanonicalMIMEHeaderKey (s : String) : String :=
  if s.data.all validHeaderFieldByte then ⟨canonicalLoop true s.data⟩ else s

namespace http

/-- The method `Header.Set`: the canonical name is bound to the single value. -/
def Header.Set (h : http.Header) (key value : String) : http.Header :=
  fun name => if name = CanonicalMIMEHeaderKey key then some [value] else h name

/-- The method `Header.Values`: the values bound to the canonical name. -/
def Header.Values (h : http.Header) (key : String) : Option (List String) :=
  h (CanonicalMIMEHeaderKey key)

/-- The method `Header.Get`: the first value of the name, or the empty string. -/
def Header.Get (h : http.Header) (key : String) : String :=
  match h (CanonicalMIMEHeaderKey key) with
  | some (v :: _) => v
  | _ => ""

/-- The call `req.Header.Set(key, value)`. -/
def Request.setHeader (req : http.Request) (key value : String) : http.Request :=
  { req with Header := req.Header.Set key value }

end http

/-- The method `Request.AddCookie`: the rendered cookie is appended to the
`Cookie` header after `"; "`, or becomes it when there is none. -/
def AddCookie {σ : Type} (W : World σ) (req : http.Request) (c : http.Cookie) : http.Request :=
  let s := W.cookieString c
  let old := req.Header.Get "Cookie"
  if old ≠ "" then req.setHeader "Cookie" (old ++ "; " ++ s)
  else req.setHeader "Cookie" s

/-- The function `http.NewRequest`: an error of the world, or a request with
the given method, URL and body, no header and `Close` unset. -/
def NewRequest {σ : Type} (W : World σ) (method url : String) (body : Option String) :
    Except String http.Request :=
  match W.newRequestErr method url with
  | some e => .error e
  | none =>
    .ok { Method := method, URL := url, Body := body, Header := http.emptyHeader, Close := false }

/-! ## request.go -/

/-- The body of the loop of `addRequestHeader` (lines 154-163) for one pair:
the arguments of the call `req.Header.Set`, or `none` when the pair is
skipped by one of the two `continue`s. -/
def headerCall (kv : String × String) : Option (String × String) :=
  let k := kv.1
  let v := kv.2
  if k.length < 1 then none
  else
    let headerKey := TrimSpace k
    let headerValue := TrimSpace v
    if headerKey = "Content-Length" then none
    else some (headerKey, headerValue)

/-- One turn of the loop of `addRequestHeader` on the request. -/
def headerStep (req : http.Request) (kv : String × String) : http.Request :=
  match headerCall kv with
  | none => req
  | some (headerKey, headerValue) => req.setHeader headerKey headerValue

/-- The loop `for k, v := range mapResult` over the pairs in visiting order. -/
def headerLoop (req : http.Request) (visited : List (String × String)) : http.Request :=
  visited.foldl headerStep req

/-- The function `addRequestHeader`: the error (if any) and the request after
the call. -/
def addRequestHeader {σ : Type} (W : World σ) (req : http.Request) (header : HeaderSpec) (s : σ) :
    Option String × http.Request :=
  match header with
  | .str headerStr =>
    if headerStr.length < 1 then (none, req)
    else
      match W.Unmarshal headerStr with
      | .error err => (some ("JsonToMap err: " ++ err), req)
      | .ok mapResult => (none, headerLoop req (W.rangeOrder s mapResult))
  | .map mapResult => (none, headerLoop req (W.rangeOrder s mapResult))
  | .other => (some "header is not string or map[string]string", req)

/-- The `switch` of `SynRequest` (lines 54-82): the arguments it passes to
`http.NewRequest` (method, URL, body), or the error of the `default` case. -/
def newRequestArgs (method : RequestMethod) (url params : String) :
    Except String (String × String × Option String) :=
  if method = RequestMethodGet ∨ method = RequestMethodHead then
    let reqUrl :=
      if params.length > 0 then
        if Contains url "?" then url ++ "&" ++ params else url ++ "?" ++ params
      else url
    .ok (method, reqUrl, none)
  else if method = RequestMethodPost ∨ method = RequestMethodPut ∨
      method = RequestMethodDelete ∨ method = RequestMethodOptions ∨
      method = RequestMethodTrace ∨ method = RequestMethodConnect then
    .ok (method, url, some params)
  else .error (method ++ "请求方法无效")

/-- Lines 51-101 of `SynRequest`: the request handed to `client.Do`, or the
error that makes `SynRequest` return before the dispatch. -/
def buildRequest {σ : Type} (W : World σ) (method : RequestMethod) (url params : String)
    (header : HeaderSpec) (cookie : List http.Cookie) (s : σ) : Except String http.Request :=
  match newRequestArgs method url params with
  | .error e => .error e
  | .ok (m, reqUrl, body) =>
    match NewRequest W m reqUrl body with
    | .error e => .error e
    | .ok req =>
      match addRequestHeader W req header s with
      | (some e, _) => .error e
      | (none, req) =>
        let req := req.setHeader "Accept-Encoding" ""
        let req := { req with Close := true }
        .ok (cookie.foldl (AddCookie W) req)

/-- The function `SynRequest`: one attempt, from a state of the world to the
result and the state after it. -/
def SynRequest {σ : Type} (W : World σ) (method : RequestMethod) (url params : String)
    (header : HeaderSpec) (cookie : List http.Cookie) (s : σ) : Result × σ :=
  match buildRequest W method url params header cookie s with
  | .error e => (⟨"", none, some e⟩, s)
  | .ok req =>
    match W.Do req s with
    | (.error e, s1) => (⟨"", none, some e⟩, s1)
    | (.ok resp, s1) =>
      match resp.Body with
      | .error e => (⟨"", none, some e⟩, s1)
      | .ok body => (⟨body, some resp.Cookies, none⟩, s1)

/-- The function `retryRequest`. Its arguments other than `retryCount` reach
`SynRequest` unchanged on every call, so they are folded into `attempt`, the
call `SynRequest(method, url, params, header, cookie)` as a step on the state.
`retryCount` is the Go `int` read as its unsigned bit pattern: the only
operations on it are the test against 0 and the decrement of a non-zero value,
which agree on both readings. -/
def retryRequest {σ : Type} (attempt : σ → Result × σ) : Nat → σ → Result × σ
  | retryCount, s =>
    match attempt s with
    | (r, s1) =>
      match r.err with
      | none => (⟨r.body, r.cookies, none⟩, s1)
      | some _ =>
        match retryCount with
        | 0 => (r, s1)
        | n + 1 => retryRequest attempt n s1

/-- The function `RequestWithCookie`. -/
def RequestWithCookie {σ : Type} (W : World σ) (method : RequestMethod) (url params : String)
    (header : HeaderSpec) (cookie : List http.Cookie) (s : σ) : Result × σ :=
  retryRequest (SynRequest W method url params header cookie) 3 s

/-- The function `Request`: the cookies of the result are dropped. -/
def Request {σ : Type} (W : World σ) (method : RequestMethod) (url params : String)
    (header : HeaderSpec) (s : σ) : (String × Option String) × σ :=
  match RequestWithCookie W method url params header [] s with
  | (r, s1) => ((r.body, r.err), s1)

/-! ## Observers and a sample world -/

/-- An attempt that also counts its calls: the second component of the state
is the number of attempts made so far. -/
def counted {σ : Type} (attempt : σ → Result × σ) : σ × Nat → Result × (σ × Nat)
  | (s, k) =>
    match attempt s with
    | (r, s1) => (r, (s1, k + 1))

/-- An attempt given by its sequence of outcomes: the state is the number of
calls made, and call number `k` (from 0) returns `outcome k`. -/
def oracle (outcome : Nat → Result) : Nat → Result × Nat :=
  fun k => (outcome k, k + 1)

/-- The pairs that the loop of `addRequestHeader` ranges over for a header
argument: none when the function returns before the loop. -/
def specPairs {σ : Type} (W : World σ) : HeaderSpec → List (String × String)
  | .str headerStr =>
    if headerStr.length < 1 then []
    else
      match W.Unmarshal headerStr with
      | .error _ => []
      | .ok mapResult => mapResult
  | .map mapResult => mapResult
  | .other => []

/-- A world for concrete runs. Its state counts the dispatched requests; the
first two dispatches fail and every later one echoes the URL of the request.
A `range` loop visits the pairs in the given order in an even state and in
the opposite order in an odd one. The decoder knows one document. -/
def sampleWorld : World Nat where
  newRequestErr := fun _ _ => none
  Unmarshal := fun doc =>
    if doc = "\x7b\"X-Test\": \" v \"\x7d" then .ok [("X-Test", " v ")]
    else .error "invalid character"
  rangeOrder := fun s m => if s % 2 = 0 then m else m.reverse
  rangeOrder_perm := by
    intro s m
    by_cases h : s % 2 = 0
    · simp [h]
    · simp [h]
  cookieString := fun c => c.Name ++ "=" ++ c.Value
  Do := fun req s =>
    (if s < 2 then .error "EOF" else .ok { Body := .ok req.URL, Cookies := [] }, s + 1)

/-- The values a built request holds under a header name; `none` too when no
request was built. -/
def builtHeader (r : Except String http.Request) (name : String) : Option (List String) :=
  match r with
  | .ok req => req.Header name
  | .error _ => none

/-- No two pairs that the loop of `addRequestHeader` passes to `Header.Set`
reach the same canonical header name with different values. -/
def OrderFree (m : List (String × String)) : Prop :=
  ∀ p, p ∈ m → ∀ q, q ∈ m → ∀ n1 v1 n2 v2,
    headerCall p = some (n1, v1) → headerCall q = some (n2, v2) →
    CanonicalMIMEHeaderKey n1 = CanonicalMIMEHeaderKey n2 → v1 = v2

/-! ## Frame lemmas -/

theorem any_tails_singleton (q : Char) (l : List Char) :
    (l.tails.any fun t => [q].isPrefixOf t) = true ↔ q ∈ l := by
  induction l with
  | nil => simp [List.isPrefixOf]
  | cons c rest ih =>
    rw [List.tails, List.any_cons, Bool.or_eq_true, ih, List.mem_cons]
    simp [List.isPrefixOf]

theorem contains_question (url : String) : Contains url "?" = true ↔ '?' ∈ url.data :=
  any_tails_singleton '?' url.data

theorem length_pos_iff_ne_empty (t : String) : t.length > 0 ↔ t ≠ "" := by
  cases t with
  | mk l => cases l <;> simp [String.length, String.ext_iff]

theorem headerStep_fields (req : http.Request) (kv : String × String) :
    (headerStep req kv).Method = req.Method ∧ (headerStep req kv).URL = req.URL ∧
    (headerStep req kv).Body = req.Body ∧ (headerStep req kv).Close = req.Close := by
  unfold headerStep
  split <;> simp [http.Request.setHeader]

theorem headerLoop_fields (visited : List (String × String)) (req : http.Request) :
    (headerLoop req visited).Method = req.Method ∧ (headerLoop req visited).URL = req.URL ∧
    (headerLoop req visited).Body = req.Body ∧ (headerLoop req visited).Close = req.Close := by
  induction visited generalizing req with
  | nil => simp [headerLoop]
  | cons kv rest ih =>
    have h1 := headerStep_fields req kv
    have h2 := ih (headerStep req kv)
    simp only [headerLoop, List.foldl_cons] at h2 ⊢
    exact ⟨h2.1.trans h1.1, h2.2.1.trans h1.2.1, h2.2.2.1.trans h1.2.2.1,
      h2.2.2.2.trans h1.2.2.2⟩

theorem addRequestHeader_fields {σ : Type} (W : World σ) (req : http.Request)
    (header : HeaderSpec) (s : σ) :
    (addRequestHeader W req header s).2.Method = req.Method ∧
    (addRequestHeader W req header s).2.URL = req.URL ∧
    (addRequestHeader W req header s).2.Body = req.Body ∧
    (addRequestHeader W req header s).2.Close = req.Close := by
  unfold addRequestHeader
  split
  · split
    · simp
    · split
      · simp
      · exact headerLoop_fields _ _
  · exact headerLoop_fields _ _
  · simp

theorem addCookie_fields {σ : Type} (W : World σ) (req : http.Request) (c : http.Cookie) :
    (AddCookie W req c).Method = req.Method ∧ (AddCookie W req c).URL = req.URL ∧
    (AddCookie W req c).Body = req.Body ∧ (AddCookie W req c).Close = req.Close := by
  unfold AddCookie
  simp only []
  split <;> simp [http.Request.setHeader]

theorem addCookies_fields {σ : Type} (W : World σ) (cookie : List http.Cookie)
    (req : http.Request) :
    (cookie.foldl (AddCookie W) req).Method = req.Method ∧
    (cookie.foldl (AddCookie W) req).URL = req.URL ∧
    (cookie.foldl (AddCookie W) req).Body = req.Body ∧
    (cookie.foldl (AddCookie W) req).Close = req.Close := by
  induction cookie generalizing req with
  | nil => simp
  | cons c rest ih =>
    have h1 := addCookie_fields W req c
    have h2 := ih (AddCookie W req c)
    simp only [List.foldl_cons]
    exact ⟨h2.1.trans h1.1, h2.2.1.trans h1.2.1, h2.2.2.1.trans h1.2.2.1,
      h2.2.2.2.trans h1.2.2.2⟩

theorem buildRequest_fields {σ : Type} (W : World σ) (method : RequestMethod)
    (url params : String) (header : HeaderSpec) (cookie : List http.Cookie) (s : σ)
    (req : http.Request) (h : buildRequest W method url params header cookie s = .ok req) :
    ∃ m u b, newRequestArgs method url params = .ok (m, u, b) ∧
      req.Method = m ∧ req.URL = u ∧ req.Body = b ∧ req.Close = true := by
  unfold buildRequest at h
  split at h
  · cases h
  · rename_i m u b hargs
    refine ⟨m, u, b, hargs, ?_⟩
    split at h
    · cases h
    · rename_i req0 hnew
      have h0 : req0.Method = m ∧ req0.URL = u ∧ req0.Body = b := by
        unfold NewRequest at hnew
        split at hnew
        · cases hnew
        · cases hnew
          simp
      split at h
      · cases h
      · rename_i req1 hadd
        have h1 := addRequestHeader_fields W req0 header s
        rw [hadd] at h1
        simp only at h1
        cases h
        have h2 := addCookies_fields W cookie
          { req1.setHeader "Accept-Encoding" "" with Close := true }
        simp only [http.Request.setHeader] at h2 ⊢
        refine ⟨?_, ?_, ?_, ?_⟩
        · rw [h2.1, h1.1, h0.1]
        · rw [h2.2.1, h1.2.1, h0.2.1]
        · rw [h2.2.2.1, h1.2.2.1, h0.2.2]
        · rw [h2.2.2.2]

theorem newRequestArgs_invalid (method : RequestMethod) (url params : String)
    (hGet : method ≠ "GET") (hPost : method ≠ "POST") (hPut : method ≠ "PUT")
    (hDelete : method ≠ "DELETE") (hHead : method ≠ "HEAD") (hOptions : method ≠ "OPTIONS")
    (hTrace : method ≠ "TRACE") (hConnect : method ≠ "CONNECT") :
    newRequestArgs method url params = .error (method ++ "请求方法无效") := by
  simp [newRequestArgs, RequestMethodGet, RequestMethodPost, RequestMethodPut,
    RequestMethodDelete, RequestMethodHead, RequestMethodOptions, RequestMethodTrace,
    RequestMethodConnect, hGet, hPost, hPut, hDelete, hHead, hOptions, hTrace, hConnect]

theorem retryRequest_zero {σ : Type} (attempt : σ → Result × σ) (s : σ) :
    retryRequest attempt 0 s =
      match (attempt s).1.err with
      | none => (⟨(attempt s).1.body, (attempt s).1.cookies, none⟩, (attempt s).2)
      | some _ => attempt s := by
  rw [retryRequest]

theorem retryRequest_succ {σ : Type} (attempt : σ → Result × σ) (n : Nat) (s : σ) :
    retryRequest attempt (n + 1) s =
      match (attempt s).1.err with
      | none => (⟨(attempt s).1.body, (attempt s).1.cookies, none⟩, (attempt s).2)
      | some _ => retryRequest attempt n (attempt s).2 := by
  rw [retryRequest]

/-! ## The retry wrapper -/

theorem result_eta (r : Result) (h : r.err = none) : (⟨r.body, r.cookies, none⟩ : Result) = r := by
  cases r
  simp only at h
  subst h
  rfl

theorem retry_oracle_success (outcome : Nat → Result) (n k : Nat)
    (h : (outcome k).err = none) :
    retryRequest (oracle outcome) n k = (outcome k, k + 1) := by
  cases n with
  | zero => rw [retryRequest_zero]; simp [oracle, h, result_eta]
  | succ n => rw [retryRequest_succ]; simp [oracle, h, result_eta]

theorem retry_oracle_failure (outcome : Nat → Result) (n k : Nat)
    (h : (outcome k).err ≠ none) :
    retryRequest (oracle outcome) (n + 1) k = retryRequest (oracle outcome) n (k + 1) := by
  rw [retryRequest_succ]
  cases he : (outcome k).err with
  | none => exact absurd he h
  | some e => simp [oracle, he]

theorem retry_oracle_last (outcome : Nat → Result) (k : Nat) :
    retryRequest (oracle outcome) 0 k = (outcome k, k + 1) := by
  rw [retryRequest_zero]
  cases he : (outcome k).err with
  | none => simp [oracle, he, result_eta]
  | some e => simp [oracle, he]

theorem retry_oracle_first_success (outcome : Nat → Result) :
    ∀ (n k j : Nat), j ≤ n → (∀ i, i < j → (outcome (k + i)).err ≠ none) →
      (outcome (k + j)).err = none →
      retryRequest (oracle outcome) n k = (outcome (k + j), k + j + 1) := by
  intro n
  induction n with
  | zero =>
    intro k j hj _ hs
    have : j = 0 := by omega
    subst this
    exact retry_oracle_success outcome 0 k hs
  | succ n ih =>
    intro k j hj hf hs
    cases j with
    | zero => exact retry_oracle_success outcome (n + 1) k hs
    | succ j =>
      rw [retry_oracle_failure outcome n k (hf 0 (by omega))]
      have := ih (k + 1) j (by omega)
        (fun i hi => by have := hf (i + 1) (by omega); rwa [show k + 1 + i = k + (i + 1) by omega])
        (by rwa [show k + 1 + j = k + (j + 1) by omega])
      rw [this, show k + 1 + j = k + (j + 1) by omega]

theorem retry_oracle_all_fail (outcome : Nat → Result) :
    ∀ (n k : Nat), (∀ i, i ≤ n → (outcome (k + i)).err ≠ none) →
      retryRequest (oracle outcome) n k = (outcome (k + n), k + n + 1) := by
  intro n
  induction n with
  | zero => intro k _; exact retry_oracle_last outcome k
  | succ n ih =>
    intro k hf
    rw [retry_oracle_failure outcome n k (hf 0 (by omega))]
    have := ih (k + 1)
      (fun i hi => by have := hf (i + 1) (by omega); rwa [show k + 1 + i = k + (i + 1) by omega])
    rw [this, show k + 1 + n = k + (n + 1) by omega]

theorem retry_oracle_bound (outcome : Nat → Result) :
    ∀ (n k : Nat), k + 1 ≤ (retryRequest (oracle outcome) n k).2 ∧
      (retryRequest (oracle outcome) n k).2 ≤ k + n + 1 := by
  intro n
  induction n with
  | zero => intro k; rw [retry_oracle_last]; simp
  | succ n ih =>
    intro k
    by_cases h : (outcome k).err = none
    · rw [retry_oracle_success outcome (n + 1) k h]
      simp only
      omega
    · rw [retry_oracle_failure outcome n k h]
      have := ih (k + 1)
      omega

/-- C1. Over an attempt given by its sequence of outcomes, started with no
call made: `RequestWithCookie` is `retryRequest` with `retryCount` 3; for every
`retryCount` n, if attempt j (from 0, j at most n) is the first to succeed then
the result is that attempt's and exactly j + 1 attempts are made; if attempts
0 to n all fail the result is the failure of attempt n after exactly n + 1
attempts; and in every case between 1 and n + 1 attempts are made. -/
theorem retryRequest_attempts (outcome : Nat → Result) (n : Nat) :
    (∀ {σ : Type} (W : World σ) method url params header cookie,
      RequestWithCookie W method url params header cookie =
        retryRequest (SynRequest W method url params header cookie) 3) ∧
    (∀ j, j ≤ n → (∀ i, i < j → (outcome i).err ≠ none) → (outcome j).err = none →
      retryRequest (oracle outcome) n 0 = (outcome j, j + 1)) ∧
    ((∀ i, i ≤ n → (outcome i).err ≠ none) →
      retryRequest (oracle outcome) n 0 = (outcome n, n + 1)) ∧
    1 ≤ (retryRequest (oracle outcome) n 0).2 ∧
    (retryRequest (oracle outcome) n 0).2 ≤ n + 1 := by
  refine ⟨fun _ _ _ _ _ _ => rfl, ?_, ?_, ?_, ?_⟩
  · intro j hj hf hs
    have := retry_oracle_first_success outcome n 0 j hj (by simpa using hf) (by simpa using hs)
    simpa using this
  · intro hf
    have := retry_oracle_all_fail outcome n 0 (by simpa using hf)
    simpa using this
  · have := (retry_oracle_bound outcome n 0).1
    omega
  · have := (retry_oracle_bound outcome n 0).2
    omega

/-- Two failures then a success under `retryCount` 3: the third attempt's
success after exactly 3 attempts; four failures: the fourth error after
exactly 4 attempts. -/
theorem retryRequest_attempts_witness :
    retryRequest (oracle fun k =>
        if k < 2 then ⟨"", none, some "EOF"⟩ else ⟨"pong", some [], none⟩) 3 0 =
      (⟨"pong", some [], none⟩, 3) ∧
    retryRequest (oracle fun k => ⟨"", none, some (toString k)⟩) 3 0 =
      (⟨"", none, some "3"⟩, 4) :=
  ⟨(retryRequest_attempts
      (fun k => if k < 2 then ⟨"", none, some "EOF"⟩ else ⟨"pong", some [], none⟩) 3).2.1 2
      (by decide) (by intro i hi; interval_cases i <;> simp) (by simp),
   (retryRequest_attempts (fun k => ⟨"", none, some (toString k)⟩) 3).2.2.1
      (by intro i _; simp)⟩

/-! ## The switch on the method -/

/-- C2. For GET and HEAD, the URL passed to `http.NewRequest` is `url` when
`params` is empty, `url + "&" + params` when `params` is non-empty and `url`
holds a `?`, and `url + "?" + params` when `params` is non-empty and `url` holds
no `?`; the body passed is nil in the three cases, and a request that
`SynRequest` goes on to dispatch carries that URL and no body. -/
theorem synRequest_query_url (method : RequestMethod) (url params : String)
    (hm : method = "GET" ∨ method = "HEAD") :
    (params = "" → newRequestArgs method url params = .ok (method, url, none)) ∧
    (params ≠ "" → '?' ∈ url.data →
      newRequestArgs method url params = .ok (method, url ++ "&" ++ params, none)) ∧
    (params ≠ "" → '?' ∉ url.data →
      newRequestArgs method url params = .ok (method, url ++ "?" ++ params, none)) ∧
    (∀ {σ : Type} (W : World σ) header cookie s req,
      buildRequest W method url params header cookie s = .ok req →
      req.Body = none ∧
      req.URL = if params = "" then url
        else if '?' ∈ url.data then url ++ "&" ++ params else url ++ "?" ++ params) := by
  have hargs : newRequestArgs method url params =
      .ok (method, (if params = "" then url
        else if '?' ∈ url.data then url ++ "&" ++ params else url ++ "?" ++ params), none) := by
    have hm2 : method = RequestMethodGet ∨ method = RequestMethodHead := hm
    unfold newRequestArgs
    rw [if_pos hm2]
    by_cases hp : params = ""
    · subst hp
      simp
    · have hlen : params.length > 0 := (length_pos_iff_ne_empty params).2 hp
      by_cases hq : '?' ∈ url.data
      · simp only [if_pos hlen, (contains_question url).2 hq, if_neg hp, if_pos hq, if_true]
      · have hc : ¬ Contains url "?" = true := fun h => hq ((contains_question url).1 h)
        simp only [if_pos hlen, if_neg hc, if_neg hp, if_neg hq]
  refine ⟨?_, ?_, ?_, ?_⟩
  · intro hp
    rw [hargs, if_pos hp]
  · intro hp hq
    rw [hargs, if_neg hp, if_pos hq]
  · intro hp hq
    rw [hargs, if_neg hp, if_neg hq]
  · intro σ W header cookie s req hreq
    obtain ⟨m, u, b, ha, _, hu, hb, _⟩ :=
      buildRequest_fields W method url params header cookie s req hreq
    rw [hargs] at ha
    cases ha
    exact ⟨hb, hu⟩

/-- A HEAD request with parameters for a URL that has a query string, a GET
request with parameters for a URL that has none, and a GET request without
parameters. -/
theorem synRequest_query_url_witness :
    newRequestArgs "HEAD" "http://h/p?a=1" "b=2" = .ok ("HEAD", "http://h/p?a=1&b=2", none) ∧
    newRequestArgs "GET" "http://h/p" "b=2" = .ok ("GET", "http://h/p?b=2", none) ∧
    newRequestArgs "GET" "http://h/p" "" = .ok ("GET", "http://h/p", none) :=
  ⟨(synRequest_query_url "HEAD" "http://h/p?a=1" "b=2" (Or.inr rfl)).2.1 (by decide) (by decide),
   (synRequest_query_url "GET" "http://h/p" "b=2" (Or.inl rfl)).2.2.1 (by decide) (by decide),
   (synRequest_query_url "GET" "http://h/p" "" (Or.inl rfl)).1 rfl⟩

/-- C3. For POST, PUT, DELETE, OPTIONS, TRACE and CONNECT, whatever `url` and
`params` hold, `http.NewRequest` is passed `url` itself and a body that reads
`params`, and a request that `SynRequest` goes on to dispatch carries that URL
and that body. -/
theorem synRequest_body_params (method : RequestMethod) (url params : String)
    (hm : method = "POST" ∨ method = "PUT" ∨ method = "DELETE" ∨ method = "OPTIONS" ∨
      method = "TRACE" ∨ method = "CONNECT") :
    newRequestArgs method url params = .ok (method, url, some params) ∧
    (∀ {σ : Type} (W : World σ) header cookie s req,
      buildRequest W method url params header cookie s = .ok req →
      req.URL = url ∧ req.Body = some params) := by
  have hargs : newRequestArgs method url params = .ok (method, url, some params) := by
    rcases hm with h | h | h | h | h | h <;> subst h <;>
      simp [newRequestArgs, RequestMethodGet, RequestMethodPost, RequestMethodPut,
        RequestMethodDelete, RequestMethodHead, RequestMethodOptions, RequestMethodTrace,
        RequestMethodConnect]
  refine ⟨hargs, ?_⟩
  intro σ W header cookie s req hreq
  obtain ⟨m, u, b, ha, _, hu, hb, _⟩ :=
    buildRequest_fields W method url params header cookie s req hreq
  rw [hargs] at ha
  cases ha
  exact ⟨hu, hb⟩

/-- A POST whose parameters hold `?` and `&`, and a DELETE with none. -/
theorem synRequest_body_params_witness :
    newRequestArgs "POST" "http://h/p?a=1" "b=2&c=?" =
      .ok ("POST", "http://h/p?a=1", some "b=2&c=?") ∧
    newRequestArgs "DELETE" "http://h/p" "" = .ok ("DELETE", "http://h/p", some "") :=
  ⟨(synRequest_body_params "POST" "http://h/p?a=1" "b=2&c=?" (Or.inl rfl)).1,
    (synRequest_body_params "DELETE" "http://h/p" "" (Or.inr (Or.inr (Or.inl rfl)))).1⟩

/-! ## An invalid method -/

theorem synRequest_of_build_error {σ : Type} (W : World σ) (method : RequestMethod)
    (url params : String) (header : HeaderSpec) (cookie : List http.Cookie) (s : σ) (e : String)
    (h : buildRequest W method url params header cookie s = .error e) :
    SynRequest W method url params header cookie s = (⟨"", none, some e⟩, s) := by
  unfold SynRequest
  rw [h]

theorem retry_counted_constant_error {σ : Type} (attempt : σ → Result × σ) (e : String)
    (h : ∀ s, attempt s = (⟨"", none, some e⟩, s)) :
    ∀ (n k : Nat) (s : σ),
      retryRequest (counted attempt) n (s, k) = (⟨"", none, some e⟩, (s, k + n + 1)) ∧
      retryRequest attempt n s = (⟨"", none, some e⟩, s) := by
  intro n
  induction n with
  | zero =>
    intro k s
    rw [retryRequest_zero, retryRequest_zero]
    simp [counted, h]
  | succ n ih =>
    intro k s
    rw [retryRequest_succ, retryRequest_succ]
    simp only [counted, h]
    refine ⟨?_, (ih k s).2⟩
    rw [(ih (k + 1) s).1]
    simp only [Prod.mk.injEq, true_and]
    omega

/-- C7. For a method that is none of the eight, whatever the other arguments
and the state of the world: `SynRequest` returns an empty body, nil cookies and
the error made of the method followed by "请求方法无效", before any request is
built (the header argument is not looked at, the world is left as it was);
`RequestWithCookie` makes exactly 4 attempts and returns that error, and so
does `Request`. -/
theorem synRequest_invalid_method {σ : Type} (W : World σ) (method : RequestMethod)
    (url params : String) (header : HeaderSpec) (cookie : List http.Cookie) (s : σ)
    (hGet : method ≠ "GET") (hPost : method ≠ "POST") (hPut : method ≠ "PUT")
    (hDelete : method ≠ "DELETE") (hHead : method ≠ "HEAD") (hOptions : method ≠ "OPTIONS")
    (hTrace : method ≠ "TRACE") (hConnect : method ≠ "CONNECT") :
    buildRequest W method url params header cookie s = .error (method ++ "请求方法无效") ∧
    SynRequest W method url params header cookie s =
      (⟨"", none, some (method ++ "请求方法无效")⟩, s) ∧
    retryRequest (counted (SynRequest W method url params header cookie)) 3 (s, 0) =
      (⟨"", none, some (method ++ "请求方法无效")⟩, (s, 4)) ∧
    RequestWithCookie W method url params header cookie s =
      (⟨"", none, some (method ++ "请求方法无效")⟩, s) ∧
    Request W method url params header s = (("", some (method ++ "请求方法无效")), s) := by
  have hargs := newRequestArgs_invalid method url params hGet hPost hPut hDelete hHead
    hOptions hTrace hConnect
  have hbuild : ∀ (c : List http.Cookie) (t : σ),
      buildRequest W method url params header c t = .error (method ++ "请求方法无效") := by
    intro c t
    unfold buildRequest
    rw [hargs]
  have hsyn : ∀ (c : List http.Cookie) (t : σ), SynRequest W method url params header c t =
      (⟨"", none, some (method ++ "请求方法无效")⟩, t) :=
    fun c t => synRequest_of_build_error W method url params header c t _ (hbuild c t)
  have hretry := retry_counted_constant_error (SynRequest W method url params header cookie)
    (method ++ "请求方法无效") (hsyn cookie) 3 0 s
  have hretry2 := retry_counted_constant_error (SynRequest W method url params header [])
    (method ++ "请求方法无效") (hsyn []) 3 0 s
  refine ⟨hbuild cookie s, hsyn cookie s, hretry.1, hretry.2, ?_⟩
  unfold Request RequestWithCookie
  rw [hretry2.2]

/-- PATCH, a lower-case get and the empty method against the sample world. -/
theorem synRequest_invalid_method_witness :
    RequestWithCookie sampleWorld "PATCH" "http://h/p" "a=1" .other [] 0 =
      (⟨"", none, some "PATCH请求方法无效"⟩, 0) ∧
    retryRequest (counted (SynRequest sampleWorld "get" "http://h/p" "" (.map []) [])) 3 (0, 0) =
      (⟨"", none, some "get请求方法无效"⟩, (0, 4)) ∧
    SynRequest sampleWorld "" "http://h/p" "" (.str "") [] 0 =
      (⟨"", none, some "请求方法无效"⟩, 0) :=
  ⟨(synRequest_invalid_method sampleWorld "PATCH" "http://h/p" "a=1" .other [] 0
      (by decide) (by decide) (by decide) (by decide) (by decide) (by decide) (by decide)
      (by decide)).2.2.2.1,
   (synRequest_invalid_method sampleWorld "get" "http://h/p" "" (.map []) [] 0
      (by decide) (by decide) (by decide) (by decide) (by decide) (by decide) (by decide)
      (by decide)).2.2.1,
   (synRequest_invalid_method sampleWorld "" "http://h/p" "" (.str "") [] 0
      (by decide) (by decide) (by decide) (by decide) (by decide) (by decide) (by decide)
      (by decide)).2.1⟩

/-! ## The header applier -/

/-- A request as `http.NewRequest` returns it, for concrete runs. -/
def freshRequest : http.Request :=
  { Method := "POST", URL := "http://h/p", Body := some "a=1", Header := http.emptyHeader,
    Close := false }

theorem rangeOrder_singleton {σ : Type} (W : World σ) (s : σ) (kv : String × String) :
    W.rangeOrder s [kv] = [kv] :=
  List.perm_singleton.1 (W.rangeOrder_perm s [kv])

/-- C6. `addRequestHeader` returns an error exactly when the argument is a
non-empty string that `json.Unmarshal` rejects, the message being
"JsonToMap err: " then the decoder's, or when it is neither a string nor a
mapping, the message being "header is not string or map[string]string". The
empty string, a string that decodes and every mapping give no error; the
empty string leaves the request as it was, and so does either failure. -/
theorem addRequestHeader_errors {σ : Type} (W : World σ) (req : http.Request)
    (header : HeaderSpec) (s : σ) :
    (∀ e, (addRequestHeader W req header s).1 = some e ↔
      ((∃ headerStr msg, header = .str headerStr ∧ headerStr ≠ "" ∧
          W.Unmarshal headerStr = .error msg ∧ e = "JsonToMap err: " ++ msg) ∨
       (header = .other ∧ e = "header is not string or map[string]string"))) ∧
    (header = .str "" → addRequestHeader W req header s = (none, req)) ∧
    (∀ headerStr m, header = .str headerStr → W.Unmarshal headerStr = .ok m →
      (addRequestHeader W req header s).1 = none) ∧
    (∀ m, header = .map m → (addRequestHeader W req header s).1 = none) ∧
    (∀ e, (addRequestHeader W req header s).1 = some e →
      (addRequestHeader W req header s).2 = req) := by
  cases header with
  | str headerStr =>
    by_cases hlen : headerStr.length < 1
    · have hempty : headerStr = "" := by
        by_contra hne
        have := (length_pos_iff_ne_empty headerStr).2 hne
        omega
      subst hempty
      simp [addRequestHeader]
    · have hne : headerStr ≠ "" := by
        intro h
        subst h
        exact hlen (by decide)
      cases hu : W.Unmarshal headerStr with
      | error msg =>
        simp only [addRequestHeader, if_neg hlen, hu]
        refine ⟨?_, ?_, ?_, ?_, ?_⟩
        · intro e
          constructor
          · intro h
            exact Or.inl ⟨headerStr, msg, rfl, hne, hu, (Option.some.inj h).symm⟩
          · rintro (⟨d, m, hd, _, hm, he⟩ | ⟨h, _⟩)
            · cases hd
              rw [hu] at hm
              cases hm
              rw [he]
            · cases h
        · intro h
          cases h
          exact absurd rfl hne
        · intro d m hd hm
          cases hd
          rw [hu] at hm
          cases hm
        · intro m h
          cases h
        · intro e _
          trivial
      | ok m =>
        simp only [addRequestHeader, if_neg hlen, hu]
        refine ⟨?_, ?_, ?_, ?_, ?_⟩
        · intro e
          constructor
          · intro h
            cases h
          · rintro (⟨d, msg, hd, _, hm, _⟩ | ⟨h, _⟩)
            · cases hd
              rw [hu] at hm
              cases hm
            · cases h
        · intro h
          cases h
          exact absurd rfl hne
        · intro _ _ _ _
          trivial
        · intro _ h
          cases h
        · intro e h
          cases h
  | map m =>
    simp only [addRequestHeader]
    refine ⟨?_, ?_, ?_, ?_, ?_⟩
    · intro e
      constructor
      · intro h
        cases h
      · rintro (⟨d, msg, hd, _⟩ | ⟨h, _⟩)
        · cases hd
        · cases h
    · intro h
      cases h
    · intro _ _ h
      cases h
    · intro _ _
      trivial
    · intro e h
      cases h
  | other =>
    simp only [addRequestHeader]
    refine ⟨?_, ?_, ?_, ?_, ?_⟩
    · intro e
      constructor
      · intro h
        exact Or.inr ⟨by trivial, (Option.some.inj h).symm⟩
      · rintro (⟨d, msg, hd, _⟩ | ⟨_, he⟩)
        · cases hd
        · rw [he]
    · intro h
      cases h
    · intro _ _ h
      cases h
    · intro _ h
      cases h
    · intro _ _
      trivial

/-- A string the sample decoder rejects, a value of another type, the empty
string and a mapping. -/
theorem addRequestHeader_errors_witness :
    (addRequestHeader sampleWorld freshRequest (.str "nope") 0).1 =
      some "JsonToMap err: invalid character" ∧
    (addRequestHeader sampleWorld freshRequest .other 0).1 =
      some "header is not string or map[string]string" ∧
    (addRequestHeader sampleWorld freshRequest (.str "") 0).1 = none ∧
    (addRequestHeader sampleWorld freshRequest (.map [("A", "b")]) 0).1 = none :=
  ⟨((addRequestHeader_errors sampleWorld freshRequest (.str "nope") 0).1 _).2
      (Or.inl ⟨"nope", "invalid character", rfl, by decide, rfl, rfl⟩),
   ((addRequestHeader_errors sampleWorld freshRequest .other 0).1 _).2 (Or.inr ⟨rfl, rfl⟩),
   congrArg Prod.fst ((addRequestHeader_errors sampleWorld freshRequest (.str "") 0).2.1 rfl),
   (addRequestHeader_errors sampleWorld freshRequest (.map [("A", "b")]) 0).2.2.2.1 _ rfl⟩

theorem headerLoop_single (req : http.Request) (k v : String) (hk : k ≠ "")
    (hcl : TrimSpace k ≠ "Content-Length") :
    headerLoop req [(k, v)] = req.setHeader (TrimSpace k) (TrimSpace v) := by
  have hlen : ¬ k.length < 1 := by
    have := (length_pos_iff_ne_empty k).2 hk
    omega
  simp [headerLoop, headerStep, headerCall, hlen, hcl]

theorem addRequestHeader_single {σ : Type} (W : World σ) (req : http.Request)
    (header : HeaderSpec) (s : σ) (k v : String) (hk : k ≠ "")
    (hcl : TrimSpace k ≠ "Content-Length")
    (hspec : header = .map [(k, v)] ∨
      ∃ doc, doc ≠ "" ∧ header = .str doc ∧ W.Unmarshal doc = .ok [(k, v)]) :
    addRequestHeader W req header s = (none, req.setHeader (TrimSpace k) (TrimSpace v)) := by
  rcases hspec with h | ⟨doc, hdoc, h, hu⟩
  · subst h
    simp only [addRequestHeader, rangeOrder_singleton, headerLoop_single req k v hk hcl]
  · subst h
    have hlen : ¬ doc.length < 1 := by
      have := (length_pos_iff_ne_empty doc).2 hdoc
      omega
    simp only [addRequestHeader, if_neg hlen, hu, rangeOrder_singleton,
      headerLoop_single req k v hk hcl]

/-- C5. For a header argument that holds the single pair (k, v), as a mapping
or as a non-empty string that decodes to it, with k non-empty and
`TrimSpace(k)` other than "Content-Length": `addRequestHeader` returns no
error, afterwards the header named `TrimSpace(k)` (looked up the way
`Header.Values` and `Header.Get` do) has the one value `TrimSpace(v)` whatever
it held before, and the headers of every other canonical name are as they
were. -/
theorem addRequestHeader_trims {σ : Type} (W : World σ) (req : http.Request)
    (header : HeaderSpec) (s : σ) (k v : String) (hk : k ≠ "")
    (hcl : TrimSpace k ≠ "Content-Length")
    (hspec : header = .map [(k, v)] ∨
      ∃ doc, doc ≠ "" ∧ header = .str doc ∧ W.Unmarshal doc = .ok [(k, v)]) :
    (addRequestHeader W req header s).1 = none ∧
    (addRequestHeader W req header s).2.Header.Values (TrimSpace k) = some [TrimSpace v] ∧
    (addRequestHeader W req header s).2.Header.Get (TrimSpace k) = TrimSpace v ∧
    (∀ name, name ≠ CanonicalMIMEHeaderKey (TrimSpace k) →
      (addRequestHeader W req header s).2.Header name = req.Header name) := by
  rw [addRequestHeader_single W req header s k v hk hcl hspec]
  refine ⟨rfl, ?_, ?_, ?_⟩
  · simp [http.Header.Values, http.Request.setHeader, http.Header.Set]
  · simp [http.Header.Get, http.Request.setHeader, http.Header.Set]
  · intro name hname
    simp [http.Request.setHeader, http.Header.Set, hname]

/-- The JSON string that holds the one pair X-Test, " v ", decoded by the
sample world: the header X-Test is "v". -/
theorem addRequestHeader_trims_witness :
    (addRequestHeader sampleWorld freshRequest
      (.str "\x7b\"X-Test\": \" v \"\x7d") 0).2.Header.Values "X-Test" = some ["v"] ∧
    (addRequestHeader sampleWorld freshRequest
      (.str "\x7b\"X-Test\": \" v \"\x7d") 0).2.Header.Get "X-Test" = "v" :=
  ⟨(addRequestHeader_trims sampleWorld freshRequest (.str "\x7b\"X-Test\": \" v \"\x7d") 0
      "X-Test" " v " (by decide) (by decide)
      (Or.inr ⟨_, by decide, rfl, rfl⟩)).2.1,
   (addRequestHeader_trims sampleWorld freshRequest (.str "\x7b\"X-Test\": \" v \"\x7d") 0
      "X-Test" " v " (by decide) (by decide)
      (Or.inr ⟨_, by decide, rfl, rfl⟩)).2.2.1⟩

/-- C4, at the failing input: a mapping whose one key is the lower-case
spelling content-length. The request holds nothing under Content-Length
before the call; the key passes the comparison with "Content-Length", and
`Header.Set` stores its value under the canonical name Content-Length. -/
theorem addRequestHeader_sets_content_length :
    freshRequest.Header "Content-Length" = none ∧
    headerCall ("content-length", "5") = some ("content-length", "5") ∧
    (addRequestHeader sampleWorld freshRequest (.map [("content-length", "5")]) 0).1 = none ∧
    (addRequestHeader sampleWorld freshRequest
      (.map [("content-length", "5")]) 0).2.Header "Content-Length" = some ["5"] := by
  refine ⟨rfl, by decide, rfl, ?_⟩
  rw [addRequestHeader_single sampleWorld freshRequest _ 0 "content-length" "5" (by decide)
    (by decide) (Or.inl rfl)]
  simp only [http.Request.setHeader, http.Header.Set]
  decide

/-- C10, at the failing input: a mapping whose one key is a single blank. The
key is not empty, so the first test lets it through; trimming then leaves the
empty name, which is passed to `Header.Set`. -/
theorem addRequestHeader_sets_empty_name :
    headerCall (" ", "v") = some ("", "v") ∧
    (addRequestHeader sampleWorld freshRequest (.map [(" ", "v")]) 0).1 = none ∧
    (addRequestHeader sampleWorld freshRequest (.map [(" ", "v")]) 0).2.Header "" =
      some ["v"] := by
  refine ⟨by decide, rfl, ?_⟩
  rw [addRequestHeader_single sampleWorld freshRequest _ 0 " " "v" (by decide)
    (by decide) (Or.inl rfl)]
  simp only [http.Request.setHeader, http.Header.Set]
  decide

/-! ## The order of the loop -/

theorem setHeader_comm (req : http.Request) (n1 v1 n2 v2 : String)
    (h : CanonicalMIMEHeaderKey n1 = CanonicalMIMEHeaderKey n2 → v1 = v2) :
    (req.setHeader n1 v1).setHeader n2 v2 = (req.setHeader n2 v2).setHeader n1 v1 := by
  have hh : ((req.setHeader n1 v1).setHeader n2 v2).Header =
      ((req.setHeader n2 v2).setHeader n1 v1).Header := by
    funext name
    simp only [http.Request.setHeader, http.Header.Set]
    split_ifs with h2 h1
    · rw [h (h1.symm.trans h2)]
    · rfl
    · rfl
    · rfl
  cases req
  simp only [http.Request.setHeader] at hh ⊢
  rw [hh]

theorem headerStep_comm (req : http.Request) (p q : String × String)
    (h : ∀ n1 v1 n2 v2, headerCall p = some (n1, v1) → headerCall q = some (n2, v2) →
      CanonicalMIMEHeaderKey n1 = CanonicalMIMEHeaderKey n2 → v1 = v2) :
    headerStep (headerStep req p) q = headerStep (headerStep req q) p := by
  unfold headerStep
  cases hp : headerCall p with
  | none => cases hq : headerCall q <;> rfl
  | some a =>
    cases hq : headerCall q with
    | none => rfl
    | some b =>
      obtain ⟨n1, v1⟩ := a
      obtain ⟨n2, v2⟩ := b
      exact setHeader_comm req n1 v1 n2 v2 (h n1 v1 n2 v2 hp hq)

theorem headerLoop_perm (req : http.Request) (m visited : List (String × String))
    (hperm : visited.Perm m) (h : OrderFree m) : headerLoop req visited = headerLoop req m := by
  unfold headerLoop
  refine List.Perm.foldl_eq' hperm ?_ req
  intro x hx y hy z
  exact headerStep_comm z x y (h x (hperm.subset hx) y (hperm.subset hy))

theorem addRequestHeader_order_free {σ : Type} (W : World σ) (req : http.Request)
    (header : HeaderSpec) (s1 s2 : σ) (h : OrderFree (specPairs W header)) :
    addRequestHeader W req header s1 = addRequestHeader W req header s2 := by
  cases header with
  | str headerStr =>
    unfold addRequestHeader
    by_cases hlen : headerStr.length < 1
    · simp only [if_pos hlen]
    · simp only [if_neg hlen]
      cases hu : W.Unmarshal headerStr with
      | error msg => rfl
      | ok m =>
        have hm : OrderFree m := by simpa [specPairs, hlen, hu] using h
        simp only
        rw [headerLoop_perm req m _ (W.rangeOrder_perm s1 m) hm,
          headerLoop_perm req m _ (W.rangeOrder_perm s2 m) hm]
  | map m =>
    unfold addRequestHeader
    simp only
    rw [headerLoop_perm req m _ (W.rangeOrder_perm s1 m) h,
      headerLoop_perm req m _ (W.rangeOrder_perm s2 m) h]
  | other => rfl

/-- C8, as the code has it. Two runs of `SynRequest` (from any two states of
the world, so with any two visiting orders of the loop) on the same method,
url, params, header argument and cookies build the same request or fail with
the same error, provided no two pairs that the loop passes to `Header.Set`
reach the same canonical name with different values; and if the endpoint
answers a request alike in the two states, the two results are the same. -/
theorem synRequest_deterministic {σ : Type} (W : World σ) (method : RequestMethod)
    (url params : String) (header : HeaderSpec) (cookie : List http.Cookie) (s1 s2 : σ)
    (h : OrderFree (specPairs W header)) :
    buildRequest W method url params header cookie s1 =
      buildRequest W method url params header cookie s2 ∧
    ((∀ req, (W.Do req s1).1 = (W.Do req s2).1) →
      (SynRequest W method url params header cookie s1).1 =
        (SynRequest W method url params header cookie s2).1) := by
  have hb : buildRequest W method url params header cookie s1 =
      buildRequest W method url params header cookie s2 := by
    unfold buildRequest
    split
    · rfl
    · split
      · rfl
      · rename_i req _
        rw [addRequestHeader_order_free W req header s1 s2 h]
  refine ⟨hb, ?_⟩
  intro hdo
  unfold SynRequest
  rw [hb]
  split
  · rfl
  · rename_i req _
    have := hdo req
    rcases h1 : W.Do req s1 with ⟨r1, t1⟩
    rcases h2 : W.Do req s2 with ⟨r2, t2⟩
    rw [h1, h2] at this
    simp only at this
    subst this
    cases r1 with
    | error e => rfl
    | ok resp =>
      rcases resp with ⟨body, cks⟩
      cases body <;> rfl

/-- A mapping with the names A and B, visited in the two orders. -/
theorem synRequest_deterministic_witness :
    buildRequest sampleWorld "POST" "http://h/p" "a=1" (.map [("A", "1"), ("B", "2")]) [] 0 =
      buildRequest sampleWorld "POST" "http://h/p" "a=1" (.map [("A", "1"), ("B", "2")]) [] 1 :=
  (synRequest_deterministic sampleWorld "POST" "http://h/p" "a=1"
    (.map [("A", "1"), ("B", "2")]) [] 0 1 (by
      have ha : headerCall ("A", "1") = some ("A", "1") := by decide
      have hb : headerCall ("B", "2") = some ("B", "2") := by decide
      have hab : CanonicalMIMEHeaderKey "A" ≠ CanonicalMIMEHeaderKey "B" := by decide
      intro p hp q hq n1 v1 n2 v2 h1 h2 hc
      simp only [specPairs, List.mem_cons, List.mem_singleton, List.not_mem_nil, or_false] at hp hq
      rcases hp with rfl | rfl <;> rcases hq with rfl | rfl
      · rw [ha] at h1 h2
        cases h1
        cases h2
        rfl
      · rw [ha] at h1
        rw [hb] at h2
        cases h1
        cases h2
        exact absurd hc hab
      · rw [hb] at h1
        rw [ha] at h2
        cases h1
        cases h2
        exact absurd hc.symm hab
      · rw [hb] at h1 h2
        cases h1
        cases h2
        rfl)).1

/-- C8 fails as stated: the mapping with the two keys "X" and " X" (distinct
keys of a Go map) gives the header X the value "2" when the loop visits "X"
first and the value "1" when it visits " X" first, so the two runs build
different requests from the same arguments. -/
theorem synRequest_order_dependent :
    builtHeader (buildRequest sampleWorld "GET" "http://h/p" ""
      (.map [("X", "1"), (" X", "2")]) [] 0) "X" = some ["2"] ∧
    builtHeader (buildRequest sampleWorld "GET" "http://h/p" ""
      (.map [("X", "1"), (" X", "2")]) [] 1) "X" = some ["1"] ∧
    buildRequest sampleWorld "GET" "http://h/p" "" (.map [("X", "1"), (" X", "2")]) [] 0 ≠
      buildRequest sampleWorld "GET" "http://h/p" "" (.map [("X", "1"), (" X", "2")]) [] 1 := by
  have h0 : builtHeader (buildRequest sampleWorld "GET" "http://h/p" ""
      (.map [("X", "1"), (" X", "2")]) [] 0) "X" = some ["2"] := by decide
  have h1 : builtHeader (buildRequest sampleWorld "GET" "http://h/p" ""
      (.map [("X", "1"), (" X", "2")]) [] 1) "X" = some ["1"] := by decide
  refine ⟨h0, h1, ?_⟩
  intro h
  rw [h, h1] at h0
  exact absurd h0 (by decide)

/-! ## The forced Accept-Encoding header -/

theorem newRequestArgs_ok_iff (method : RequestMethod) (url params : String) :
    (∃ u b, newRequestArgs method url params = .ok (method, u, b)) ↔
      (method = "GET" ∨ method = "POST" ∨ method = "PUT" ∨ method = "DELETE" ∨
        method = "HEAD" ∨ method = "OPTIONS" ∨ method = "TRACE" ∨ method = "CONNECT") := by
  constructor
  · rintro ⟨u, b, h⟩
    by_contra hn
    simp only [not_or] at hn
    obtain ⟨h1, h2, h3, h4, h5, h6, h7, h8⟩ := hn
    rw [newRequestArgs_invalid method url params h1 h2 h3 h4 h5 h6 h7 h8] at h
    cases h
  · rintro (h | h | h | h | h | h | h | h) <;> subst h <;>
      simp [newRequestArgs, RequestMethodGet, RequestMethodPost, RequestMethodPut,
        RequestMethodDelete, RequestMethodHead, RequestMethodOptions, RequestMethodTrace,
        RequestMethodConnect]

theorem canonical_cookie : CanonicalMIMEHeaderKey "Cookie" = "Cookie" := by decide

theorem canonical_accept_encoding :
    CanonicalMIMEHeaderKey "Accept-Encoding" = "Accept-Encoding" := by decide

theorem addCookie_header {σ : Type} (W : World σ) (req : http.Request) (c : http.Cookie)
    (name : String) (h : name ≠ "Cookie") : (AddCookie W req c).Header name = req.Header name := by
  unfold AddCookie
  simp only []
  split <;> simp [http.Request.setHeader, http.Header.Set, canonical_cookie, h]

theorem addCookies_header {σ : Type} (W : World σ) (cookie : List http.Cookie)
    (req : http.Request) (name : String) (h : name ≠ "Cookie") :
    (cookie.foldl (AddCookie W) req).Header name = req.Header name := by
  induction cookie generalizing req with
  | nil => rfl
  | cons c rest ih =>
    simp only [List.foldl_cons]
    rw [ih (AddCookie W req c), addCookie_header W req c name h]

/-- C9, as the code has it. For a method the switch accepts (one of the eight,
see `newRequestArgs_ok_iff`), a URL that `http.NewRequest` accepts and a header
argument that `addRequestHeader` accepts, `SynRequest` builds a request and
dispatches it; that request holds under Accept-Encoding the single value "",
has `Close` set, and holds under every name other than Accept-Encoding and
Cookie what `addRequestHeader` left there; with no cookie to attach the same is
true of Cookie. -/
theorem synRequest_accept_encoding {σ : Type} (W : World σ) (method : RequestMethod)
    (url params : String) (header : HeaderSpec) (cookie : List http.Cookie) (s : σ)
    (m u : String) (b : Option String)
    (hargs : newRequestArgs method url params = .ok (m, u, b))
    (hnew : W.newRequestErr m u = none)
    (hacc : (addRequestHeader W (http.Request.mk m u b http.emptyHeader false) header s).1 = none) :
    ∃ req, buildRequest W method url params header cookie s = .ok req ∧
      (SynRequest W method url params header cookie s).2 = (W.Do req s).2 ∧
      req.Header "Accept-Encoding" = some [""] ∧
      req.Header.Values "Accept-Encoding" = some [""] ∧
      req.Close = true ∧
      (∀ name, name ≠ "Accept-Encoding" → name ≠ "Cookie" →
        req.Header name = (addRequestHeader W (http.Request.mk m u b http.emptyHeader false) header s).2.Header name) ∧
      (cookie = [] → ∀ name, name ≠ "Accept-Encoding" →
        req.Header name = (addRequestHeader W (http.Request.mk m u b http.emptyHeader false) header s).2.Header name) := by
  rcases hadd : addRequestHeader W (http.Request.mk m u b http.emptyHeader false) header s with ⟨e, req1⟩
  rw [hadd] at hacc
  simp only at hacc
  subst hacc
  have hb : buildRequest W method url params header cookie s =
      .ok (cookie.foldl (AddCookie W)
        { req1.setHeader "Accept-Encoding" "" with Close := true }) := by
    unfold buildRequest
    simp only [hargs, NewRequest, hnew, hadd]
  refine ⟨_, hb, ?_, ?_, ?_, ?_, ?_, ?_⟩
  · unfold SynRequest
    rw [hb]
    simp only
    rcases W.Do _ s with ⟨r, t⟩
    cases r with
    | error e => rfl
    | ok resp =>
      rcases resp with ⟨body, cks⟩
      cases body <;> rfl
  · rw [addCookies_header W cookie _ _ (by decide)]
    simp [http.Request.setHeader, http.Header.Set, canonical_accept_encoding]
  · unfold http.Header.Values
    rw [canonical_accept_encoding, addCookies_header W cookie _ _ (by decide)]
    simp [http.Request.setHeader, http.Header.Set, canonical_accept_encoding]
  · exact (addCookies_fields W cookie _).2.2.2
  · intro name hae hck
    rw [addCookies_header W cookie _ _ hck]
    simp [http.Request.setHeader, http.Header.Set, canonical_accept_encoding, hae]
  · intro hc name hae
    subst hc
    simp [http.Request.setHeader, http.Header.Set, canonical_accept_encoding, hae]

/-- A GET through the sample world whose header argument supplies its own
accept-encoding value and a cookie to attach. -/
theorem synRequest_accept_encoding_witness :
    ∃ req, buildRequest sampleWorld "GET" "http://h/p" "a=1"
        (.map [("accept-encoding", "gzip"), ("X-Test", " v ")]) [⟨"n", "v"⟩] 0 = .ok req ∧
      req.Header "Accept-Encoding" = some [""] ∧ req.Close = true :=
  match synRequest_accept_encoding sampleWorld "GET" "http://h/p" "a=1"
      (.map [("accept-encoding", "gzip"), ("X-Test", " v ")]) [⟨"n", "v"⟩] 0
      "GET" "http://h/p?a=1" none rfl rfl rfl with
  | ⟨req, h1, _, h3, _, h5, _⟩ => ⟨req, h1, h3, h5⟩

/-- C9 fails as stated: with the header Cookie supplied by the mapping and a
cookie to attach, `addRequestHeader` leaves "a=b" under Cookie and the request
that is dispatched holds "a=b; n=v" there. -/
theorem synRequest_cookie_header_changed :
    (addRequestHeader sampleWorld (http.Request.mk "GET" "http://h/p" none http.emptyHeader false)
      (.map [("Cookie", "a=b")]) 0).2.Header "Cookie" = some ["a=b"] ∧
    builtHeader (buildRequest sampleWorld "GET" "http://h/p" "" (.map [("Cookie", "a=b")])
      [⟨"n", "v"⟩] 0) "Cookie" = some ["a=b; n=v"] := by
  constructor <;> decide

end Network
